import Mathlib

/-!
Verification development for a producer/consumer microservice pair and the
minimal at-least-once message-broker core described by its specification.

The embedded artifacts are:
  - `connectWithRetry`, the bounded-retry connection loop shared verbatim by
    `src/producer/index.js` and `src/consumer/index.js`;
  - `sendMessage` and the HTTP handlers of the producer service;
  - the `user_tasks` consume callback of the consumer service;
  - a broker core (queues, sessions, delivery, ack/nack, unsubscribe),
    modelled from the specification, since the broker itself is an external
    collaborator of the repository and has no source under `src/`.
-/

namespace Microservices

/-! ## Connection retry loop (src/producer/index.js lines 12-27,
    src/consumer/index.js lines 8-23; the two copies are identical). -/

/-- Observable outcome of one run of `connectWithRetry`: how many times
`connectFn` was invoked, the durations of the `sleep(delay)` calls that were
made (in order), and whether the function returned `true` (as opposed to
throwing the final `Failed to connect` error). -/
structure RetryTrace where
  attemptsMade : Nat
  sleepDelays : List Nat
  success : Bool
  deriving DecidableEq, Repr

/-- Body of the `for (let i = 0; i < maxRetries; i++)` loop of
`connectWithRetry`, started at index `i`.  `connectOk j` tells whether the
`j`-th invocation of `connectFn` succeeds (`await connectFn()` resolving) or
fails (throwing).  On success the loop returns `true` at once; on failure it
sleeps `delay` milliseconds only when `i < maxRetries - 1`, then continues. -/
def retryFrom (connectOk : Nat → Bool) (maxRetries delay i : Nat) : RetryTrace :=
  if h : i < maxRetries then
    if connectOk i then
      { attemptsMade := 1, sleepDelays := [], success := true }
    else
      let rest := retryFrom connectOk maxRetries delay (i + 1)
      { attemptsMade := rest.attemptsMade + 1,
        sleepDelays := (if i < maxRetries - 1 then [delay] else []) ++ rest.sleepDelays,
        success := rest.success }
  else
    { attemptsMade := 0, sleepDelays := [], success := false }
  termination_by maxRetries - i

/-- The `connectWithRetry(connectFn, serviceName, maxRetries = 10, delay = 3000)`
function: the loop above started at `i = 0`.  `success = false` means the
`Failed to connect` error was thrown after the loop. -/
def connectWithRetry (connectOk : Nat → Bool) (maxRetries delay : Nat) : RetryTrace :=
  retryFrom connectOk maxRetries delay 0

/-- Default argument `maxRetries = 10` in both services. -/
def defaultMaxRetries : Nat := 10

/-- Default argument `delay = 3000` (milliseconds) in both services. -/
def defaultDelay : Nat := 3000

/-! ## Producer service (src/producer/index.js lines 45-91). -/

/-- Observable behaviour of the `channel.sendToQueue(queue, buf)` call when it
is reached: it returns `true`, returns `false` (write buffer full), or throws. -/
inductive SendOutcome where
  | returnedTrue
  | returnedFalse
  | threw
  deriving DecidableEq, Repr

/-- The producer's `sendMessage(message)`: if the channel is not initialized it
logs and returns `false` without calling `sendToQueue`; otherwise it calls
`sendToQueue` inside `try`, returning `true` when it returned `true`, `false`
when it returned `false`, and `false` from the `catch` when it threw.  The
message text itself does not influence the result. -/
def sendMessage (channelReady : Bool) (sendToQueue : SendOutcome)
    (_message : String) : Bool :=
  if !channelReady then
    false
  else
    match sendToQueue with
    | .returnedTrue => true
    | .returnedFalse => false
    | .threw => false

/-- An HTTP response as produced by the two GET handlers. -/
structure HttpResponse where
  status : Nat
  body : String
  deriving DecidableEq, Repr

/-- The `GET /` handler: `sendMessage('something to do')`, then 200 with a
success body or 500 with an error body. -/
def rootGetHandler (channelReady : Bool) (sendToQueue : SendOutcome) : HttpResponse :=
  if sendMessage channelReady sendToQueue "something to do" then
    { status := 200, body := "Message sent to queue!" }
  else
    { status := 500, body := "Failed to send message" }

/-- The `GET /send` handler: takes `req.query.msg` (or the literal
`default message` when absent), calls `sendMessage`, then answers exactly as
the `GET /` handler does. -/
def sendGetHandler (channelReady : Bool) (sendToQueue : SendOutcome)
    (queryMsg : Option String) : HttpResponse :=
  let msg := queryMsg.getD "default message"
  if sendMessage channelReady sendToQueue msg then
    { status := 200, body := "Message sent to queue!" }
  else
    { status := 500, body := "Failed to send message" }

/-! ## Consumer service: the `user_tasks` consume callback
    (src/consumer/index.js lines 63-73). -/

/-- Externally visible actions the `user_tasks` callback can perform, in
order. -/
inductive ConsumerAction where
  | loggedCancel
  | parsedPayload
  | savedUser
  | ackedMessage
  deriving DecidableEq, Repr

/-- The `ch1.consume(userQueue, ...)` callback.  `msg = none` models the
`msg === null` cancellation branch.  `parseOk content` tells whether
`JSON.parse(content)` succeeds, `saveOk content` whether `user.save()`
resolves.  A throwing parse aborts the async function before any action; a
rejecting save aborts it after the parse but before `ch1.ack(msg)`. -/
def userTasksCallback (msg : Option String) (parseOk saveOk : String → Bool) :
    List ConsumerAction :=
  match msg with
  | none => [.loggedCancel]
  | some content =>
    if parseOk content then
      if saveOk content then
        [.parsedPayload, .savedUser, .ackedMessage]
      else
        [.parsedPayload]
    else
      []

/-! ## Broker core, modelled from the spec (§3-§5).  The broker is an external
    collaborator of the repository (RabbitMQ); no broker source exists under
    src/, so the definitions below follow the specification text. -/

/-- Association-list lookup by decidable key equality (first match wins). -/
def alookup {α β : Type} [DecidableEq α] (l : List (α × β)) (k : α) : Option β :=
  match l with
  | [] => none
  | e :: rest => if e.1 = k then some e.2 else alookup rest k

/-- Modelled from the spec: the state of one Queue (§3).  `ready` is the
`ready_sequence`, an ordered list of message ids in `Ready` state, insertion
order = delivery order (FIFO, no priority); `inFlight` maps each in-flight
message id to the consumer holding it; `nextId` is the next fresh message id
(ids are unique and monotonically increasing per queue, assigned at enqueue
time). -/
structure QueueState where
  ready : List Nat
  inFlight : List (Nat × Nat)
  nextId : Nat
  deriving DecidableEq, Repr

/-- A freshly asserted queue: empty, no in-flight messages. -/
def emptyQueue : QueueState := { ready := [], inFlight := [], nextId := 0 }

/-- Modelled from the spec: `Enqueue(message)` appends to the tail of
`ready_sequence` (§4.2); the message gets the next fresh id. -/
def enqueue (q : QueueState) : QueueState :=
  { ready := q.ready ++ [q.nextId], inFlight := q.inFlight, nextId := q.nextId + 1 }

/-- Modelled from the spec: `DequeueFor(consumer, max_count)` pops up to
`max_count` messages from the head of `ready_sequence` and moves them to
`in_flight` keyed by the consumer id; returns the popped messages, empty when
`ready_sequence` is empty (§4.2). -/
def dequeueFor (q : QueueState) (c maxCount : Nat) : QueueState × List Nat :=
  let taken := q.ready.take maxCount
  ({ ready := q.ready.drop maxCount,
     inFlight := q.inFlight ++ taken.map (fun m => (m, c)),
     nextId := q.nextId },
   taken)

/-- Modelled from the spec: the error taxonomy entry relevant to Queue
operations (§7): `UnknownMessage` for an Ack/Nack referencing an id not
currently in flight for that consumer. -/
inductive QueueError where
  | unknownMessage
  deriving DecidableEq, Repr

/-- Modelled from the spec: `Ack(consumer, message_id)` removes the message
from `in_flight` if owned by `consumer`; fails with `UnknownMessage` (queue
state unchanged) if the id is not in flight for that consumer (§4.2, §7). -/
def ackMessage (q : QueueState) (c m : Nat) : Except QueueError QueueState :=
  if (m, c) ∈ q.inFlight then
    .ok { ready := q.ready,
          inFlight := q.inFlight.filter (fun e => e.1 ≠ m),
          nextId := q.nextId }
  else
    .error .unknownMessage

/-- Modelled from the spec: `Nack(consumer, message_id, requeue)` removes the
message from `in_flight`; if `requeue` is true it is reinserted at the tail of
`ready_sequence` with state `Ready`, if false it is discarded permanently;
`UnknownMessage` (state unchanged) if not in flight for that consumer
(§4.2, §7). -/
def nackMessage (q : QueueState) (c m : Nat) (requeue : Bool) :
    Except QueueError QueueState :=
  if (m, c) ∈ q.inFlight then
    .ok { ready := if requeue then q.ready ++ [m] else q.ready,
          inFlight := q.inFlight.filter (fun e => e.1 ≠ m),
          nextId := q.nextId }
  else
    .error .unknownMessage

/-- Modelled from the spec: requeue every in-flight message held by consumer
`c`, moving each to the tail of `ready_sequence` (the crash treatment shared
by `Unsubscribe` and `ReapExpired`, same semantics as `Nack(requeue=true)`,
§4.2, §4.4). -/
def requeueAllOf (q : QueueState) (c : Nat) : QueueState :=
  { ready := q.ready ++ (q.inFlight.filter (fun e => e.2 = c)).map Prod.fst,
    inFlight := q.inFlight.filter (fun e => e.2 ≠ c),
    nextId := q.nextId }

/-- Modelled from the spec: a Consumer Session (§3): the queue it is
subscribed to and its `prefetch_limit`. -/
structure Session where
  queueName : String
  prefetch : Nat
  deriving DecidableEq, Repr

/-- Modelled from the spec: the Broker (§3, §4.4): a registry mapping queue
names to Queues, the active consumer sessions keyed by consumer id, and the
next fresh consumer id. -/
structure Broker where
  queues : List (String × QueueState)
  sessions : List (Nat × Session)
  nextConsumer : Nat
  deriving DecidableEq, Repr

/-- The broker at process start: no queues, no sessions. -/
def broker0 : Broker := { queues := [], sessions := [], nextConsumer := 0 }

/-- Apply `f` to the queue registered under name `n` (leaving every other
entry alone). -/
def updateQueue (qs : List (String × QueueState)) (n : String)
    (f : QueueState → QueueState) : List (String × QueueState) :=
  match qs with
  | [] => []
  | e :: rest =>
    if e.1 = n then (e.1, f e.2) :: updateQueue rest n f
    else e :: updateQueue rest n f

/-- Modelled from the spec: `AssertQueue(name)` is an idempotent
create-if-absent that never errors on an existing queue with an identical
name and never implicitly deletes a queue (§4.4, §3 Broker Registry). -/
def assertQueue (b : Broker) (n : String) : Broker :=
  match alookup b.queues n with
  | some _ => b
  | none => { b with queues := b.queues ++ [(n, emptyQueue)] }

/-- Modelled from the spec: `Publish(queue_name, payload)` creates a Message
and enqueues it into the named Queue; it does not wait for a consumer (§4.4).
Publishing to a queue that was never asserted leaves the broker unchanged
(`QueueNotFound` is reported to the caller, §7). -/
def publishTo (b : Broker) (n : String) : Broker :=
  match alookup b.queues n with
  | some _ => { b with queues := updateQueue b.queues n enqueue }
  | none => b

/-- Modelled from the spec: `Subscribe(queue_name, prefetch_limit)` registers
a Consumer Session under a fresh consumer id (§4.4). -/
def subscribeTo (b : Broker) (n : String) (k : Nat) : Broker :=
  { b with
    sessions := b.sessions ++ [(b.nextConsumer, { queueName := n, prefetch := k })],
    nextConsumer := b.nextConsumer + 1 }

/-- Number of messages currently in flight for consumer `c` in queue `q`
(the Delivery Tracker's per-consumer accounting, §4.3). -/
def inFlightCountQ (q : QueueState) (c : Nat) : Nat :=
  (q.inFlight.filter (fun e => e.2 = c)).length

/-- The `in_flight_count` of consumer `c` across the whole broker: its
delivered-but-unacknowledged messages (§3 Consumer Session). -/
def inFlightCount (b : Broker) (c : Nat) : Nat :=
  (b.queues.map (fun p => inFlightCountQ p.2 c)).sum

/-- Modelled from the spec: one push-delivery attempt for consumer `c` (§5):
the Broker dequeues from the session's queue at most the consumer's remaining
prefetch budget (`TryReserve` grants `prefetch_limit - in_flight_count`,
partial grants allowed, §4.3). -/
def deliverTo (b : Broker) (c : Nat) : Broker :=
  match alookup b.sessions c with
  | none => b
  | some s =>
    match alookup b.queues s.queueName with
    | none => b
    | some _ =>
      let budget := s.prefetch - inFlightCount b c
      { b with
        queues := updateQueue b.queues s.queueName (fun q => (dequeueFor q c budget).1) }

/-- Modelled from the spec: broker-level `Ack(consumer_id, message_id)`:
forwards to the session's Queue; on `UnknownMessage` the error is reported to
the caller and the state is left unchanged (§4.4, §7). -/
def ackAt (b : Broker) (c m : Nat) : Broker :=
  match alookup b.sessions c with
  | none => b
  | some s =>
    match alookup b.queues s.queueName with
    | none => b
    | some q =>
      match ackMessage q c m with
      | .ok q2 => { b with queues := updateQueue b.queues s.queueName (fun _ => q2) }
      | .error _ => b

/-- Modelled from the spec: broker-level `Nack(consumer_id, message_id,
requeue)`: forwards to the session's Queue; on `UnknownMessage` the state is
left unchanged (§4.4, §7). -/
def nackAt (b : Broker) (c m : Nat) (requeue : Bool) : Broker :=
  match alookup b.sessions c with
  | none => b
  | some s =>
    match alookup b.queues s.queueName with
    | none => b
    | some q =>
      match nackMessage q c m requeue with
      | .ok q2 => { b with queues := updateQueue b.queues s.queueName (fun _ => q2) }
      | .error _ => b

/-- Modelled from the spec: `Unsubscribe(consumer_id)`: all of that
consumer's in-flight messages are immediately requeued (treated as a crash)
and the session is removed (§4.4). -/
def unsubscribe (b : Broker) (c : Nat) : Broker :=
  { queues := b.queues.map (fun p => (p.1, requeueAllOf p.2 c)),
    sessions := b.sessions.filter (fun e => e.1 ≠ c),
    nextConsumer := b.nextConsumer }

/-- Modelled from the spec: `ReapExpired` requeues in-flight entries whose
owning consumer is no longer connected, with the same semantics as
`Nack(requeue=true)` (§4.2); a consumer that still holds a session is not
reaped. -/
def reapExpired (b : Broker) (c : Nat) : Broker :=
  match alookup b.sessions c with
  | some _ => b
  | none => { b with queues := b.queues.map (fun p => (p.1, requeueAllOf p.2 c)) }

/-- The operations a client can drive the broker with. -/
inductive BrokerOp where
  | assertQ (name : String)
  | publish (name : String)
  | subscribe (name : String) (prefetch : Nat)
  | deliver (c : Nat)
  | ackOp (c m : Nat)
  | nackOp (c m : Nat) (requeue : Bool)
  | unsub (c : Nat)
  | reap (c : Nat)
  deriving DecidableEq, Repr

/-- One broker transition. -/
def step (b : Broker) (op : BrokerOp) : Broker :=
  match op with
  | .assertQ n => assertQueue b n
  | .publish n => publishTo b n
  | .subscribe n k => subscribeTo b n k
  | .deliver c => deliverTo b c
  | .ackOp c m => ackAt b c m
  | .nackOp c m rq => nackAt b c m rq
  | .unsub c => unsubscribe b c
  | .reap c => reapExpired b c

/-- Run a sequence of operations from a broker state.  The reachable states
of the broker are exactly the `run broker0 ops`. -/
def run (b : Broker) (ops : List BrokerOp) : Broker :=
  ops.foldl step b

/-- A sequence of `k` Publish calls on a single queue (used to state the FIFO
property on a quiescent queue). -/
def publishMany (q : QueueState) : Nat → QueueState
  | 0 => q
  | k + 1 => enqueue (publishMany q k)

/-- A sequence of `DequeueFor` calls, each given as a pair (consumer,
max_count); returns the final queue state and the concatenation of the
delivered message ids in delivery order. -/
def runDequeues (q : QueueState) (calls : List (Nat × Nat)) : QueueState × List Nat :=
  match calls with
  | [] => (q, [])
  | (c, n) :: rest =>
    let out := dequeueFor q c n
    let later := runDequeues out.1 rest
    (later.1, out.2 ++ later.2)

/-- Modelled from the spec: the per-queue structural invariant (§3 Queue):
`ready_sequence` holds no duplicates, a message id is in flight for at most
one consumer, no id is simultaneously ready and in flight, and all ids are
below the queue's fresh-id counter. -/
structure QueueWF (q : QueueState) : Prop where
  readyNodup : q.ready.Nodup
  keysNodup : (q.inFlight.map Prod.fst).Nodup
  readyFlightDisjoint : ∀ m ∈ q.ready, m ∉ q.inFlight.map Prod.fst
  readyBound : ∀ m ∈ q.ready, m < q.nextId
  flightBound : ∀ e ∈ q.inFlight, e.1 < q.nextId

/-- Modelled from the spec: the broker-wide invariant tying queues and
sessions together: queue names are unique in the registry, every queue is
well-formed, session ids are unique and below the fresh-consumer counter,
every session's `in_flight_count` respects its `prefetch_limit`, and a
consumer without a session holds nothing in flight. -/
structure BrokerWF (b : Broker) : Prop where
  namesNodup : (b.queues.map Prod.fst).Nodup
  queuesWF : ∀ p ∈ b.queues, QueueWF p.2
  sessionKeysNodup : (b.sessions.map Prod.fst).Nodup
  sessionsFresh : ∀ e ∈ b.sessions, e.1 < b.nextConsumer
  prefetchBound : ∀ e ∈ b.sessions, inFlightCount b e.1 ≤ e.2.prefetch
  idleZero : ∀ c, alookup b.sessions c = none → inFlightCount b c = 0

/-! ## Theorems about the connection retry loop. -/

lemma retryFrom_stop (ok : Nat → Bool) (mr d i : Nat) (hge : ¬ i < mr) :
    retryFrom ok mr d i = ⟨0, [], false⟩ := by
  rw [retryFrom]
  simp [hge]

lemma retryFrom_hit (ok : Nat → Bool) (mr d i : Nat) (hlt : i < mr)
    (hok : ok i = true) : retryFrom ok mr d i = ⟨1, [], true⟩ := by
  rw [retryFrom]
  simp [hlt, hok]

lemma retryFrom_miss (ok : Nat → Bool) (mr d i : Nat) (hlt : i < mr)
    (hok : ok i = false) :
    retryFrom ok mr d i =
      ⟨(retryFrom ok mr d (i + 1)).attemptsMade + 1,
       (if i < mr - 1 then [d] else []) ++ (retryFrom ok mr d (i + 1)).sleepDelays,
       (retryFrom ok mr d (i + 1)).success⟩ := by
  rw [retryFrom]
  simp [hlt, hok]

lemma retryFrom_props (ok : Nat → Bool) (mr d : Nat) :
    ∀ n i, mr - i ≤ n →
      (retryFrom ok mr d i).attemptsMade ≤ mr - i ∧
      ((retryFrom ok mr d i).success = true ↔
        ∃ j, i ≤ j ∧ j < mr ∧ ok j = true) ∧
      ((retryFrom ok mr d i).success = false →
        (retryFrom ok mr d i).attemptsMade = mr - i) ∧
      ((retryFrom ok mr d i).success = true →
        1 ≤ (retryFrom ok mr d i).attemptsMade ∧
        ok (i + ((retryFrom ok mr d i).attemptsMade - 1)) = true ∧
        ∀ j, i ≤ j → j < i + ((retryFrom ok mr d i).attemptsMade - 1) →
          ok j = false) ∧
      (retryFrom ok mr d i).sleepDelays =
        List.replicate
          (if (retryFrom ok mr d i).success then
            (retryFrom ok mr d i).attemptsMade - 1
           else (mr - 1) - i) d := by
  intro n
  induction n with
  | zero =>
    intro i hi
    have hge : ¬ i < mr := by omega
    rw [retryFrom_stop ok mr d i hge]
    dsimp only
    refine ⟨Nat.zero_le _, ?_, ?_, ?_, ?_⟩
    · constructor
      · intro h
        exact absurd h (by simp)
      · rintro ⟨j, hj1, hj2, _⟩
        exact absurd hj2 (by omega)
    · intro _
      omega
    · intro h
      simp at h
    · have hz : (mr - 1) - i = 0 := by omega
      simp [hz]
  | succ n ih =>
    intro i hi
    by_cases hlt : i < mr
    · by_cases hok : ok i = true
      · rw [retryFrom_hit ok mr d i hlt hok]
        dsimp only
        refine ⟨by omega, ?_, ?_, ?_, ?_⟩
        · constructor
          · intro _
            exact ⟨i, le_rfl, hlt, hok⟩
          · intro _
            rfl
        · intro h
          simp at h
        · intro _
          exact ⟨le_rfl, by simpa using hok, fun j h1 h2 => by omega⟩
        · simp
      · have hok' : ok i = false := by
          simpa using hok
        obtain ⟨ih1, ih2, ih3, ih4, ih5⟩ := ih (i + 1) (by omega)
        rw [retryFrom_miss ok mr d i hlt hok']
        dsimp only
        refine ⟨by omega, ?_, ?_, ?_, ?_⟩
        · rw [ih2]
          constructor
          · rintro ⟨j, hj1, hj2, hj3⟩
            exact ⟨j, by omega, hj2, hj3⟩
          · rintro ⟨j, hj1, hj2, hj3⟩
            have hne : j ≠ i := by
              intro h
              rw [h, hok'] at hj3
              simp at hj3
            exact ⟨j, by omega, hj2, hj3⟩
        · intro hf
          have h9 := ih3 hf
          clear ih1 ih2 ih3 ih4 ih5
          omega
        · intro hs
          obtain ⟨ha1, ha2, ha3⟩ := ih4 hs
          refine ⟨by omega, ?_, ?_⟩
          · have heq : i + ((retryFrom ok mr d (i + 1)).attemptsMade + 1 - 1) =
                (i + 1) + ((retryFrom ok mr d (i + 1)).attemptsMade - 1) := by
              omega
            rw [heq]
            exact ha2
          · intro j hj1 hj2
            by_cases hji : j = i
            · rw [hji]
              exact hok'
            · exact ha3 j (by omega) (by omega)
        · rw [ih5]
          by_cases hs : (retryFrom ok mr d (i + 1)).success = true
          · obtain ⟨j, hj1, hj2, _⟩ := ih2.mp hs
            have hi1 : i < mr - 1 := by omega
            have ha1 := (ih4 hs).1
            simp only [if_pos hs, if_pos hi1]
            have hrw : (retryFrom ok mr d (i + 1)).attemptsMade + 1 - 1 =
                ((retryFrom ok mr d (i + 1)).attemptsMade - 1) + 1 := by
              omega
            rw [hrw, List.replicate_succ, List.singleton_append]
          · simp only [if_neg hs]
            by_cases hi1 : i < mr - 1
            · have hrw : (mr - 1) - i = ((mr - 1) - (i + 1)) + 1 := by
                omega
              rw [if_pos hi1, hrw, List.replicate_succ, List.singleton_append]
            · have h0 : (mr - 1) - i = 0 := by omega
              have h1 : (mr - 1) - (i + 1) = 0 := by omega
              rw [if_neg hi1, h0, h1]
              simp
    · obtain ⟨h1, h2, h3, h4, h5⟩ := ih i (by omega)
      exact ⟨h1, h2, h3, h4, h5⟩

/-- C1: `connectWithRetry` invokes `connectFn` at most `maxRetries` times,
sleeps a fixed `delay` only between failed attempts and never after the last
one, returns `true` immediately after the first successful invocation (all
earlier invocations having failed), and throws the `Failed to connect` error
(success = false, after exactly `maxRetries` invocations) if and only if all
`maxRetries` invocations fail. -/
theorem connectWithRetry_spec (ok : Nat → Bool) (mr d : Nat) :
    (connectWithRetry ok mr d).attemptsMade ≤ mr ∧
    ((connectWithRetry ok mr d).success = true ↔ ∃ j, j < mr ∧ ok j = true) ∧
    ((connectWithRetry ok mr d).success = false ↔ ∀ j, j < mr → ok j = false) ∧
    ((connectWithRetry ok mr d).success = false →
      (connectWithRetry ok mr d).attemptsMade = mr) ∧
    ((connectWithRetry ok mr d).success = true →
      1 ≤ (connectWithRetry ok mr d).attemptsMade ∧
      ok ((connectWithRetry ok mr d).attemptsMade - 1) = true ∧
      ∀ j, j + 1 < (connectWithRetry ok mr d).attemptsMade → ok j = false) ∧
    (connectWithRetry ok mr d).sleepDelays =
      List.replicate
        (if (connectWithRetry ok mr d).success then
          (connectWithRetry ok mr d).attemptsMade - 1
         else mr - 1) d := by
  obtain ⟨h1, h2, h3, h4, h5⟩ := retryFrom_props ok mr d mr 0 (by omega)
  unfold connectWithRetry
  refine ⟨by simpa using h1, ?_, ?_, ?_, ?_, ?_⟩
  · rw [h2]
    constructor
    · rintro ⟨j, _, hj2, hj3⟩
      exact ⟨j, hj2, hj3⟩
    · rintro ⟨j, hj2, hj3⟩
      exact ⟨j, Nat.zero_le j, hj2, hj3⟩
  · constructor
    · intro hf j hj
      by_contra hcon
      have hj3 : ok j = true := by
        simpa using hcon
      have := h2.mpr ⟨j, Nat.zero_le j, hj, hj3⟩
      rw [this] at hf
      simp at hf
    · intro hall
      by_contra hcon
      have hs : (retryFrom ok mr d 0).success = true := by
        cases h : (retryFrom ok mr d 0).success
        · exact absurd h hcon
        · rfl
      obtain ⟨j, _, hj2, hj3⟩ := h2.mp hs
      rw [hall j hj2] at hj3
      simp at hj3
  · intro hf
    simpa using h3 hf
  · intro hs
    obtain ⟨ha1, ha2, ha3⟩ := h4 hs
    exact ⟨ha1, by simpa using ha2, fun j hj => ha3 j (Nat.zero_le j) (by omega)⟩
  · simpa using h5

/-- C1 witness: with a connect function succeeding on the third attempt and
the default parameters, the retry loop reports success. -/
theorem connectWithRetry_spec_witness :
    (connectWithRetry (fun j => decide (j = 2)) defaultMaxRetries defaultDelay).success = true := by
  have h := connectWithRetry_spec (fun j => decide (j = 2)) defaultMaxRetries defaultDelay
  exact h.2.1.mpr ⟨2, by decide, by decide⟩

/-! ## Theorems about the producer service. -/

/-- C9: `sendMessage` never throws: it returns `false` when the channel is
uninitialized, when `sendToQueue` throws, and when `sendToQueue` returns
`false`; it returns `true` exactly when the channel is initialized and
`sendToQueue` returned `true`.  The `GET /` and `GET /send` handlers answer
200 with the success body exactly in that case, and 500 with the error body
whenever `sendMessage` returned `false`. -/
theorem sendMessage_handlers_spec (ch : Bool) (o : SendOutcome) (msg : String)
    (q : Option String) :
    (ch = false → sendMessage ch o msg = false) ∧
    (o = SendOutcome.threw → sendMessage ch o msg = false) ∧
    (o = SendOutcome.returnedFalse → sendMessage ch o msg = false) ∧
    (sendMessage ch o msg = true ↔ ch = true ∧ o = SendOutcome.returnedTrue) ∧
    ((rootGetHandler ch o).status = 200 ∧
        (rootGetHandler ch o).body = "Message sent to queue!" ↔
      ch = true ∧ o = SendOutcome.returnedTrue) ∧
    (sendMessage ch o msg = false →
      (rootGetHandler ch o).status = 500 ∧
      (rootGetHandler ch o).body = "Failed to send message") ∧
    ((sendGetHandler ch o q).status = 200 ∧
        (sendGetHandler ch o q).body = "Message sent to queue!" ↔
      ch = true ∧ o = SendOutcome.returnedTrue) ∧
    (sendMessage ch o msg = false →
      (sendGetHandler ch o q).status = 500 ∧
      (sendGetHandler ch o q).body = "Failed to send message") := by
  cases ch <;> cases o <;>
    simp [sendMessage, rootGetHandler, sendGetHandler]

/-- C9 witness: with an initialized channel and a `sendToQueue` that returns
`true`, `GET /` answers 200, and with an uninitialized channel it answers
500. -/
theorem sendMessage_handlers_spec_witness :
    (rootGetHandler true SendOutcome.returnedTrue).status = 200 ∧
    (rootGetHandler false SendOutcome.returnedTrue).status = 500 := by
  constructor
  · exact ((sendMessage_handlers_spec true SendOutcome.returnedTrue
      "something to do" none).2.2.2.2.1.mpr ⟨rfl, rfl⟩).1
  · exact ((sendMessage_handlers_spec false SendOutcome.returnedTrue
      "something to do" none).2.2.2.2.2.1 (by decide)).1

/-! ## Theorems about the consumer service callback. -/

/-- C10: the `user_tasks` callback acknowledges the message exactly when the
message is non-null, `JSON.parse` succeeds and `user.save()` resolves; and
whenever the ack happens, it happens after the parse and the save. -/
theorem userTasksCallback_ack_spec (msg : Option String)
    (parseOk saveOk : String → Bool) :
    (ConsumerAction.ackedMessage ∈ userTasksCallback msg parseOk saveOk ↔
      ∃ content, msg = some content ∧ parseOk content = true ∧
        saveOk content = true) ∧
    (ConsumerAction.ackedMessage ∈ userTasksCallback msg parseOk saveOk →
      userTasksCallback msg parseOk saveOk =
        [ConsumerAction.parsedPayload, ConsumerAction.savedUser,
         ConsumerAction.ackedMessage]) := by
  cases msg with
  | none => simp [userTasksCallback]
  | some content =>
    by_cases hp : parseOk content = true <;>
      by_cases hs : saveOk content = true <;>
        simp [userTasksCallback, hp, hs]

/-- C10 witness: a message whose save rejects is not acknowledged; one whose
parse and save both succeed is. -/
theorem userTasksCallback_ack_spec_witness :
    ConsumerAction.ackedMessage ∈
      userTasksCallback (some "u") (fun _ => true) (fun _ => true) ∧
    ConsumerAction.ackedMessage ∉
      userTasksCallback (some "u") (fun _ => true) (fun _ => false) := by
  constructor
  · exact (userTasksCallback_ack_spec (some "u") (fun _ => true)
      (fun _ => true)).1.mpr ⟨"u", rfl, rfl, rfl⟩
  · intro hmem
    obtain ⟨c, _, _, hfalse⟩ := (userTasksCallback_ack_spec (some "u")
      (fun _ => true) (fun _ => false)).1.mp hmem
    simp at hfalse

/-! ## Association-list lemmas for the broker registry and sessions. -/

lemma alookup_mem {α β : Type} [DecidableEq α] {l : List (α × β)} {k : α} {v : β}
    (h : alookup l k = some v) : (k, v) ∈ l := by
  induction l with
  | nil => simp [alookup] at h
  | cons e rest ih =>
    rw [alookup] at h
    by_cases he : e.1 = k
    · rw [if_pos he] at h
      have hv : e.2 = v := Option.some.inj h
      have hkv : (k, v) = e := by
        rw [← he, ← hv]
      rw [hkv]
      exact List.mem_cons_self e rest
    · rw [if_neg he] at h
      exact List.mem_cons_of_mem e (ih h)

lemma alookup_append_some {α β : Type} [DecidableEq α] {l1 : List (α × β)}
    (l2 : List (α × β)) {k : α} {v : β} (h : alookup l1 k = some v) :
    alookup (l1 ++ l2) k = some v := by
  induction l1 with
  | nil => simp [alookup] at h
  | cons e rest ih =>
    rw [alookup] at h
    rw [List.cons_append, alookup]
    by_cases he : e.1 = k
    · rw [if_pos he] at h ⊢
      exact h
    · rw [if_neg he] at h ⊢
      exact ih h

lemma alookup_append_none {α β : Type} [DecidableEq α] {l1 : List (α × β)}
    (l2 : List (α × β)) {k : α} (h : alookup l1 k = none) :
    alookup (l1 ++ l2) k = alookup l2 k := by
  induction l1 with
  | nil => simp
  | cons e rest ih =>
    rw [alookup] at h
    rw [List.cons_append, alookup]
    by_cases he : e.1 = k
    · rw [if_pos he] at h
      exact absurd h (by simp)
    · rw [if_neg he] at h ⊢
      exact ih h

lemma alookup_self {α β : Type} [DecidableEq α] (k : α) (v : β) :
    alookup [(k, v)] k = some v := by
  rw [alookup]
  simp

lemma count_key_of_nodup {α β : Type} [DecidableEq α] (l : List (α × β)) (k : α)
    (h : (l.map Prod.fst).Nodup) :
    (l.filter (fun p => p.1 = k)).length =
      if (alookup l k).isSome then 1 else 0 := by
  induction l with
  | nil => simp [alookup]
  | cons e rest ih =>
    rw [List.map_cons, List.nodup_cons] at h
    obtain ⟨hnot, hrest⟩ := h
    rw [alookup]
    by_cases he : e.1 = k
    · have hnone : rest.filter (fun p => p.1 = k) = [] := by
        apply List.filter_eq_nil_iff.mpr
        intro p hp hk
        have hpk : p.1 = k := by simpa using hk
        apply hnot
        rw [he, ← hpk]
        exact List.mem_map_of_mem Prod.fst hp
      simp [he, hnone]
    · simp only [if_neg he]
      rw [List.filter_cons]
      have hd : (decide (e.1 = k)) = false := by simpa using he
      rw [hd]
      simpa using ih hrest

lemma alookup_eq_none_iff {α β : Type} [DecidableEq α] (l : List (α × β)) (k : α) :
    alookup l k = none ↔ ∀ e ∈ l, e.1 ≠ k := by
  induction l with
  | nil => simp [alookup]
  | cons e rest ih =>
    rw [alookup]
    by_cases he : e.1 = k
    · simp [he]
    · rw [if_neg he, ih]
      constructor
      · intro h e2 he2
        rcases List.mem_cons.mp he2 with h1 | h2
        · rw [h1]
          exact he
        · exact h e2 h2
      · intro h e2 he2
        exact h e2 (List.mem_cons_of_mem e he2)

lemma alookup_of_mem_nodup {α β : Type} [DecidableEq α] {l : List (α × β)}
    {k : α} {v : β} (hnd : (l.map Prod.fst).Nodup) (hmem : (k, v) ∈ l) :
    alookup l k = some v := by
  induction l with
  | nil => simp at hmem
  | cons e rest ih =>
    rw [List.map_cons, List.nodup_cons] at hnd
    obtain ⟨hnot, hrest⟩ := hnd
    rw [alookup]
    rcases List.mem_cons.mp hmem with h1 | h2
    · rw [← h1]
      simp
    · have hek : e.1 ≠ k := by
        intro hek
        apply hnot
        rw [hek]
        exact List.mem_map_of_mem Prod.fst h2
      rw [if_neg hek]
      exact ih hrest h2

/-! ## Theorems about AssertQueue (C7). -/

/-- C7: `AssertQueue` is idempotent: a second call with the same name is the
identity (so any number of calls equals one call), applying it to a broker
whose registry already holds the name changes nothing at all (no error, no
deletion, no reset of contents), and after a call the registry holds exactly
one queue of that name. -/
theorem assertQueue_idempotent (b : Broker) (n : String)
    (hwf : (b.queues.map Prod.fst).Nodup) :
    assertQueue (assertQueue b n) n = assertQueue b n ∧
    ((assertQueue b n).queues.filter (fun p => p.1 = n)).length = 1 ∧
    (∀ q, alookup b.queues n = some q → assertQueue b n = b) := by
  have hident : ∀ (b2 : Broker) (q : QueueState),
      alookup b2.queues n = some q → assertQueue b2 n = b2 := by
    intro b2 q hq
    unfold assertQueue
    rw [hq]
  refine ⟨?_, ?_, fun q2 hq2 => hident b q2 hq2⟩
  · cases halo : alookup b.queues n with
    | some q =>
      have hb := hident b q halo
      rw [hb, hb]
    | none =>
      have hass : assertQueue b n = { b with queues := b.queues ++ [(n, emptyQueue)] } := by
        unfold assertQueue
        rw [halo]
      have hlook : alookup (b.queues ++ [(n, emptyQueue)]) n = some emptyQueue := by
        rw [alookup_append_none _ halo]
        exact alookup_self n emptyQueue
      exact hident (assertQueue b n) emptyQueue (by rw [hass]; exact hlook)
  · cases halo : alookup b.queues n with
    | some q =>
      rw [hident b q halo, count_key_of_nodup b.queues n hwf, halo]
      simp
    | none =>
      have hass : assertQueue b n = { b with queues := b.queues ++ [(n, emptyQueue)] } := by
        unfold assertQueue
        rw [halo]
      rw [hass]
      dsimp only
      rw [List.filter_append, List.length_append,
        count_key_of_nodup b.queues n hwf, halo]
      simp

/-- C7 witness: asserting `tasks` twice from the empty broker registry equals
asserting it once, and leaves exactly one queue named `tasks`. -/
theorem assertQueue_idempotent_witness :
    assertQueue (assertQueue broker0 "tasks") "tasks" = assertQueue broker0 "tasks" ∧
    ((assertQueue broker0 "tasks").queues.filter (fun p => p.1 = "tasks")).length = 1 := by
  have h := assertQueue_idempotent broker0 "tasks" (by decide)
  exact ⟨h.1, h.2.1⟩

/-! ## Theorems about Ack/Nack on unknown messages (C4). -/

/-- C4: if message `m` is not currently in flight for consumer `c`, then both
`Ack(c, m)` and `Nack(c, m, requeue)` return the `UnknownMessage` error, and
at the broker level (for a broker none of whose queues holds `(m, c)` in
flight) the entire state is left unchanged. -/
theorem ackNack_unknownMessage (q : QueueState) (c m : Nat) (rq : Bool)
    (hnot : (m, c) ∉ q.inFlight) :
    ackMessage q c m = Except.error QueueError.unknownMessage ∧
    nackMessage q c m rq = Except.error QueueError.unknownMessage ∧
    (∀ b : Broker, (∀ p ∈ b.queues, (m, c) ∉ p.2.inFlight) →
      ackAt b c m = b ∧ nackAt b c m rq = b) := by
  refine ⟨?_, ?_, ?_⟩
  · unfold ackMessage
    rw [if_neg hnot]
  · unfold nackMessage
    rw [if_neg hnot]
  · intro b hb
    constructor
    · unfold ackAt
      split
      · rfl
      · rename_i s hs
        split
        · rfl
        · rename_i q0 hq
          split
          · rename_i q2 hok
            have hnot0 : (m, c) ∉ q0.inFlight := hb (s.queueName, q0) (alookup_mem hq)
            unfold ackMessage at hok
            rw [if_neg hnot0] at hok
            simp at hok
          · rfl
    · unfold nackAt
      split
      · rfl
      · rename_i s hs
        split
        · rfl
        · rename_i q0 hq
          split
          · rename_i q2 hok
            have hnot0 : (m, c) ∉ q0.inFlight := hb (s.queueName, q0) (alookup_mem hq)
            unfold nackMessage at hok
            rw [if_neg hnot0] at hok
            simp at hok
          · rfl

/-- C4 witness: acking the never-delivered message 0 on an empty queue yields
`UnknownMessage`, and the corresponding broker operation is the identity on
the empty broker. -/
theorem ackNack_unknownMessage_witness :
    ackMessage emptyQueue 0 0 = Except.error QueueError.unknownMessage ∧
    ackAt broker0 0 0 = broker0 := by
  have h := ackNack_unknownMessage emptyQueue 0 0 true (by decide)
  exact ⟨h.1, (h.2.2 broker0 (by decide)).1⟩

/-! ## Theorems about Nack (C6). -/

/-- C6: for an in-flight message `m` held by consumer `c`,
`Nack(c, m, requeue=true)` succeeds, removes `m` from `in_flight` and
reinserts it at the tail of `ready_sequence`, so any `DequeueFor` delivers `m`
exactly when its count exceeds the number of previously ready messages (the
old ready messages drain first); `Nack(c, m, requeue=false)` succeeds and
removes `m` permanently: not ready, not in flight, never dequeued again. -/
theorem nack_requeue_tail (q : QueueState) (c m : Nat)
    (hin : (m, c) ∈ q.inFlight) (hm : m ∉ q.ready) :
    (∃ q2, nackMessage q c m true = Except.ok q2 ∧
      q2.ready = q.ready ++ [m] ∧
      (∀ e ∈ q2.inFlight, e.1 ≠ m) ∧
      (∀ c2 n, m ∈ (dequeueFor q2 c2 n).2 ↔ q.ready.length < n)) ∧
    (∃ q3, nackMessage q c m false = Except.ok q3 ∧
      q3.ready = q.ready ∧
      (∀ e ∈ q3.inFlight, e.1 ≠ m) ∧
      (∀ c3 n, m ∉ (dequeueFor q3 c3 n).2)) := by
  have hfil : ∀ e ∈ q.inFlight.filter (fun e => e.1 ≠ m), e.1 ≠ m := by
    intro e he
    simpa using List.of_mem_filter he
  constructor
  · refine ⟨{ ready := q.ready ++ [m],
              inFlight := q.inFlight.filter (fun e => e.1 ≠ m),
              nextId := q.nextId }, ?_, rfl, hfil, ?_⟩
    · unfold nackMessage
      rw [if_pos hin]
      simp
    · intro c2 n
      unfold dequeueFor
      dsimp only
      constructor
      · intro hmem
        by_contra hn
        push_neg at hn
        rw [List.take_append_of_le_length hn] at hmem
        exact hm (List.take_subset _ _ hmem)
      · intro hn
        have hall : (q.ready ++ [m]).take n = q.ready ++ [m] := by
          apply List.take_of_length_le
          rw [List.length_append]
          simp only [List.length_singleton]
          omega
        rw [hall]
        simp
  · refine ⟨{ ready := q.ready,
              inFlight := q.inFlight.filter (fun e => e.1 ≠ m),
              nextId := q.nextId }, ?_, rfl, hfil, ?_⟩
    · unfold nackMessage
      rw [if_pos hin]
      simp
    · intro c3 n
      unfold dequeueFor
      dsimp only
      intro hmem
      exact hm (List.take_subset _ _ hmem)

/-- C6 witness: nacking the only in-flight message of a queue with requeue
puts it at the tail, and a one-message dequeue does not return it while a
two-message dequeue does. -/
theorem nack_requeue_tail_witness :
    0 ∉ (dequeueFor { ready := [1, 0], inFlight := [], nextId := 2 } 7 1).2 := by
  have h := nack_requeue_tail
    { ready := [1], inFlight := [(0, 5)], nextId := 2 } 5 0
    (by decide) (by decide)
  obtain ⟨⟨q2, hok, hready, _, hdeq⟩, _⟩ := h
  have hq2 : q2 = { ready := [1, 0], inFlight := [], nextId := 2 } := by
    unfold nackMessage at hok
    rw [if_pos (by decide)] at hok
    simpa using (Except.ok.inj hok).symm
  intro hmem
  have := (hdeq 7 1).mp (by rw [hq2]; exact hmem)
  simp at this

/-! ## Theorems about FIFO order (C3). -/

lemma publishMany_state (k : Nat) :
    (publishMany emptyQueue k).ready = List.range k ∧
    (publishMany emptyQueue k).inFlight = [] ∧
    (publishMany emptyQueue k).nextId = k := by
  induction k with
  | zero => exact ⟨rfl, rfl, rfl⟩
  | succ k ih =>
    obtain ⟨h1, h2, h3⟩ := ih
    unfold publishMany enqueue
    refine ⟨?_, by simpa using h2, by simpa using h3⟩
    rw [h1, h3, List.range_succ]

lemma runDequeues_take (q : QueueState) (calls : List (Nat × Nat)) :
    (runDequeues q calls).2 = q.ready.take ((calls.map Prod.snd).sum) ∧
    (runDequeues q calls).1.ready = q.ready.drop ((calls.map Prod.snd).sum) := by
  induction calls generalizing q with
  | nil => simp [runDequeues]
  | cons e rest ih =>
    obtain ⟨c, n⟩ := e
    have hq1 : (dequeueFor q c n).1.ready = q.ready.drop n := rfl
    obtain ⟨ih1, ih2⟩ := ih (dequeueFor q c n).1
    rw [runDequeues]
    dsimp only
    constructor
    · rw [ih1, hq1, List.map_cons, List.sum_cons]
      have : (dequeueFor q c n).2 = q.ready.take n := rfl
      rw [this, List.take_add]
    · rw [ih2, hq1, List.map_cons, List.sum_cons]
      rw [List.drop_drop]

/-- C3: publishing `k` messages into a fresh quiescent queue and then running
any sequence of `DequeueFor` calls delivers exactly a prefix of the messages
in publish order (the ids `0, 1, 2, ...` in order): FIFO, no priority. -/
theorem fifo_publish_order (k : Nat) (calls : List (Nat × Nat)) :
    (runDequeues (publishMany emptyQueue k) calls).2 =
      (List.range k).take ((calls.map Prod.snd).sum) := by
  have h := (runDequeues_take (publishMany emptyQueue k) calls).1
  rw [h, (publishMany_state k).1]

/-! ## Lemmas about updateQueue and in-flight counting. -/

lemma updateQueue_map_fst (qs : List (String × QueueState)) (n : String)
    (f : QueueState → QueueState) :
    (updateQueue qs n f).map Prod.fst = qs.map Prod.fst := by
  induction qs with
  | nil => rfl
  | cons e rest ih =>
    rw [updateQueue]
    by_cases he : e.1 = n
    · rw [if_pos he, List.map_cons, List.map_cons, ih]
    · rw [if_neg he, List.map_cons, List.map_cons, ih]

lemma mem_updateQueue {qs : List (String × QueueState)} {n : String}
    {f : QueueState → QueueState} {p : String × QueueState}
    (hp : p ∈ updateQueue qs n f) :
    p ∈ qs ∨ ∃ q0, (p.1, q0) ∈ qs ∧ p.2 = f q0 := by
  induction qs with
  | nil => simp [updateQueue] at hp
  | cons e rest ih =>
    rw [updateQueue] at hp
    by_cases he : e.1 = n
    · rw [if_pos he] at hp
      rcases List.mem_cons.mp hp with h1 | h2
      · right
        refine ⟨e.2, ?_, ?_⟩
        · rw [h1]
          exact List.mem_cons_self e rest
        · rw [h1]
      · rcases ih h2 with ha | ⟨q0, hq0, hpq⟩
        · exact Or.inl (List.mem_cons_of_mem e ha)
        · exact Or.inr ⟨q0, List.mem_cons_of_mem e hq0, hpq⟩
    · rw [if_neg he] at hp
      rcases List.mem_cons.mp hp with h1 | h2
      · rw [h1]
        exact Or.inl (List.mem_cons_self e rest)
      · rcases ih h2 with ha | ⟨q0, hq0, hpq⟩
        · exact Or.inl (List.mem_cons_of_mem e ha)
        · exact Or.inr ⟨q0, List.mem_cons_of_mem e hq0, hpq⟩

lemma updateQueue_id {qs : List (String × QueueState)} {n : String}
    (f : QueueState → QueueState) (h : ∀ e ∈ qs, e.1 ≠ n) :
    updateQueue qs n f = qs := by
  induction qs with
  | nil => rfl
  | cons e rest ih =>
    rw [updateQueue, if_neg (h e (List.mem_cons_self e rest)),
      ih (fun e2 he2 => h e2 (List.mem_cons_of_mem e he2))]

lemma sum_map_updateQueue (g : QueueState → Nat) {qs : List (String × QueueState)}
    {n : String} (f : QueueState → QueueState)
    (hnd : (qs.map Prod.fst).Nodup) {q : QueueState}
    (hq : alookup qs n = some q) :
    ((updateQueue qs n f).map (fun p => g p.2)).sum + g q =
      (qs.map (fun p => g p.2)).sum + g (f q) := by
  induction qs with
  | nil => simp [alookup] at hq
  | cons e rest ih =>
    rw [List.map_cons, List.nodup_cons] at hnd
    obtain ⟨hnot, hrest⟩ := hnd
    rw [alookup] at hq
    rw [updateQueue]
    by_cases he : e.1 = n
    · rw [if_pos he] at hq ⊢
      have hq2 : q = e.2 := (Option.some.inj hq).symm
      have hid : updateQueue rest n f = rest := by
        apply updateQueue_id
        intro e2 he2 hcon
        apply hnot
        rw [he, ← hcon]
        exact List.mem_map_of_mem Prod.fst he2
      rw [hid, hq2, List.map_cons, List.map_cons, List.sum_cons, List.sum_cons]
      dsimp only
      omega
    · rw [if_neg he] at hq ⊢
      rw [List.map_cons, List.map_cons, List.sum_cons, List.sum_cons]
      have := ih hrest hq
      omega

lemma inFlightCountQ_dequeue (q : QueueState) (c n c2 : Nat) :
    inFlightCountQ ((dequeueFor q c n).1) c2 =
      inFlightCountQ q c2 + if c2 = c then (q.ready.take n).length else 0 := by
  unfold inFlightCountQ dequeueFor
  dsimp only
  rw [List.filter_append, List.length_append]
  congr 1
  by_cases hc : c2 = c
  · rw [if_pos hc]
    have hall : ((q.ready.take n).map (fun m => (m, c))).filter
        (fun e => e.2 = c2) = (q.ready.take n).map (fun m => (m, c)) := by
      apply List.filter_eq_self.mpr
      intro e he
      obtain ⟨a, _, rfl⟩ := List.mem_map.mp he
      simp [hc]
    rw [hall, List.length_map]
  · rw [if_neg hc]
    have hnone : ((q.ready.take n).map (fun m => (m, c))).filter
        (fun e => e.2 = c2) = [] := by
      apply List.filter_eq_nil_iff.mpr
      intro e he
      obtain ⟨a, _, rfl⟩ := List.mem_map.mp he
      simpa using fun hcc => hc hcc.symm
    rw [hnone]
    rfl

lemma inFlightCountQ_requeueAllOf_self (q : QueueState) (c : Nat) :
    inFlightCountQ (requeueAllOf q c) c = 0 := by
  unfold inFlightCountQ requeueAllOf
  dsimp only
  rw [List.length_eq_zero]
  apply List.filter_eq_nil_iff.mpr
  intro e he
  have h2 : e.2 ≠ c := by
    simpa using List.of_mem_filter he
  simpa using h2

lemma inFlightCountQ_requeueAllOf_other (q : QueueState) (c c2 : Nat)
    (hne : c2 ≠ c) :
    inFlightCountQ (requeueAllOf q c) c2 = inFlightCountQ q c2 := by
  unfold inFlightCountQ requeueAllOf
  dsimp only
  congr 1
  rw [List.filter_filter]
  apply List.filter_congr
  intro a _
  by_cases ha : a.2 = c2
  · simp [ha, hne]
  · simp [ha]

lemma inFlightCountQ_filterKey_le (q : QueueState) (m c : Nat) :
    ((q.inFlight.filter (fun e => e.1 ≠ m)).filter
      (fun e => e.2 = c)).length ≤ inFlightCountQ q c :=
  List.Sublist.length_le (List.Sublist.filter _ (List.filter_sublist _))

lemma inFlightCount_requeue_map_self (b : Broker) (c : Nat) :
    ((b.queues.map (fun p => (p.1, requeueAllOf p.2 c))).map
      (fun p => inFlightCountQ p.2 c)).sum = 0 := by
  rw [List.map_map]
  apply List.sum_eq_zero
  intro x hx
  obtain ⟨p, _, rfl⟩ := List.mem_map.mp hx
  exact inFlightCountQ_requeueAllOf_self p.2 c

lemma inFlightCount_requeue_map_other (b : Broker) (c c2 : Nat) (hne : c2 ≠ c) :
    ((b.queues.map (fun p => (p.1, requeueAllOf p.2 c))).map
      (fun p => inFlightCountQ p.2 c2)).sum = inFlightCount b c2 := by
  rw [List.map_map]
  unfold inFlightCount
  apply congrArg List.sum
  apply List.map_congr_left
  intro p _
  exact inFlightCountQ_requeueAllOf_other p.2 c c2 hne

/-! ## Queue-level preservation of the structural invariant. -/

lemma queueWF_empty : QueueWF emptyQueue := by
  refine ⟨List.nodup_nil, List.nodup_nil, ?_, ?_, ?_⟩ <;> simp [emptyQueue]

lemma queueWF_enqueue {q : QueueState} (h : QueueWF q) : QueueWF (enqueue q) := by
  obtain ⟨h1, h2, h3, h4, h5⟩ := h
  have hready : (q.ready ++ [q.nextId]).Nodup := by
    apply List.Nodup.append h1 (List.nodup_singleton _)
    intro a ha hb
    have ha4 := h4 a ha
    have hab : a = q.nextId := by simpa using hb
    omega
  have hdisj : ∀ m ∈ q.ready ++ [q.nextId], m ∉ q.inFlight.map Prod.fst := by
    intro m hm hcon
    obtain ⟨e, he, hfst⟩ := List.mem_map.mp hcon
    have he5 := h5 e he
    rcases List.mem_append.mp hm with hr | hs
    · exact h3 m hr hcon
    · have : m = q.nextId := by simpa using hs
      omega
  have hrb : ∀ m ∈ q.ready ++ [q.nextId], m < q.nextId + 1 := by
    intro m hm
    rcases List.mem_append.mp hm with hr | hs
    · have := h4 m hr
      omega
    · have : m = q.nextId := by simpa using hs
      omega
  have hfb : ∀ e ∈ q.inFlight, e.1 < q.nextId + 1 := by
    intro e he
    have := h5 e he
    omega
  exact ⟨hready, h2, hdisj, hrb, hfb⟩

lemma queueWF_dequeueFor {q : QueueState} (h : QueueWF q) (c n : Nat) :
    QueueWF ((dequeueFor q c n).1) := by
  obtain ⟨h1, h2, h3, h4, h5⟩ := h
  have hkeys : ((q.inFlight ++ (q.ready.take n).map (fun m => (m, c))).map Prod.fst) =
      q.inFlight.map Prod.fst ++ q.ready.take n := by
    rw [List.map_append, List.map_map]
    congr 1
    rw [show (Prod.fst ∘ fun m => (m, c)) = id from rfl, List.map_id]
  have hready : (q.ready.drop n).Nodup := h1.sublist (List.drop_sublist n q.ready)
  have htake : (q.ready.take n).Nodup := h1.sublist (List.take_sublist n q.ready)
  have hkeysN : ((q.inFlight ++ (q.ready.take n).map (fun m => (m, c))).map Prod.fst).Nodup := by
    rw [hkeys]
    apply List.Nodup.append h2 htake
    intro a ha hb
    exact h3 a (List.take_subset n q.ready hb) ha
  have hdisj : ∀ m ∈ q.ready.drop n,
      m ∉ (q.inFlight ++ (q.ready.take n).map (fun m => (m, c))).map Prod.fst := by
    intro m hm hcon
    rw [hkeys] at hcon
    rcases List.mem_append.mp hcon with hk | ht
    · exact h3 m (List.drop_subset n q.ready hm) hk
    · exact List.disjoint_take_drop h1 le_rfl ht hm
  have hrb : ∀ m ∈ q.ready.drop n, m < q.nextId :=
    fun m hm => h4 m (List.drop_subset n q.ready hm)
  have hfb : ∀ e ∈ q.inFlight ++ (q.ready.take n).map (fun m => (m, c)),
      e.1 < q.nextId := by
    intro e he
    rcases List.mem_append.mp he with hl | hr
    · exact h5 e hl
    · obtain ⟨a, ha, rfl⟩ := List.mem_map.mp hr
      exact h4 a (List.take_subset n q.ready ha)
  exact ⟨hready, hkeysN, hdisj, hrb, hfb⟩

lemma queueWF_filterInFlight {q : QueueState} (h : QueueWF q)
    (p : Nat × Nat → Bool) :
    QueueWF { ready := q.ready, inFlight := q.inFlight.filter p,
              nextId := q.nextId } := by
  obtain ⟨h1, h2, h3, h4, h5⟩ := h
  have hsub : List.Sublist (q.inFlight.filter p) q.inFlight :=
    List.filter_sublist _
  have hkeys : List.Sublist ((q.inFlight.filter p).map Prod.fst)
      (q.inFlight.map Prod.fst) := List.Sublist.map _ hsub
  exact ⟨h1, h2.sublist hkeys, fun m hm hc => h3 m hm (hkeys.subset hc), h4,
    fun e he => h5 e (hsub.subset he)⟩

lemma queueWF_nackRequeue {q : QueueState} (h : QueueWF q) {c m : Nat}
    (hin : (m, c) ∈ q.inFlight) :
    QueueWF { ready := q.ready ++ [m],
              inFlight := q.inFlight.filter (fun e => e.1 ≠ m),
              nextId := q.nextId } := by
  obtain ⟨h1, h2, h3, h4, h5⟩ := h
  have hmk : m ∈ q.inFlight.map Prod.fst := List.mem_map_of_mem Prod.fst hin
  have hmr : m ∉ q.ready := fun hr => h3 m hr hmk
  have hkeysSub : List.Sublist ((q.inFlight.filter (fun e => e.1 ≠ m)).map Prod.fst)
      (q.inFlight.map Prod.fst) := List.Sublist.map _ (List.filter_sublist _)
  have hnotm : m ∉ (q.inFlight.filter (fun e => e.1 ≠ m)).map Prod.fst := by
    intro hc
    obtain ⟨e, he, hfst⟩ := List.mem_map.mp hc
    have : e.1 ≠ m := by simpa using List.of_mem_filter he
    exact this hfst
  refine ⟨?_, h2.sublist hkeysSub, ?_, ?_,
    fun e he => h5 e ((List.filter_sublist _).subset he)⟩
  · apply List.Nodup.append h1 (List.nodup_singleton m)
    intro a ha hb
    have hab : a = m := by simpa using hb
    rw [hab] at ha
    exact hmr ha
  · intro x hx hc
    rcases List.mem_append.mp hx with hr | hs
    · exact h3 x hr (hkeysSub.subset hc)
    · have : x = m := by simpa using hs
      rw [this] at hc
      exact hnotm hc
  · intro x hx
    rcases List.mem_append.mp hx with hr | hs
    · exact h4 x hr
    · have hxm : x = m := by simpa using hs
      have := h5 (m, c) hin
      simpa [hxm] using this

lemma queueWF_requeueAllOf {q : QueueState} (h : QueueWF q) (c : Nat) :
    QueueWF (requeueAllOf q c) := by
  obtain ⟨h1, h2, h3, h4, h5⟩ := h
  have hmineSub : List.Sublist
      ((q.inFlight.filter (fun e => e.2 = c)).map Prod.fst)
      (q.inFlight.map Prod.fst) := List.Sublist.map _ (List.filter_sublist _)
  have hkeepSub : List.Sublist
      ((q.inFlight.filter (fun e => e.2 ≠ c)).map Prod.fst)
      (q.inFlight.map Prod.fst) := List.Sublist.map _ (List.filter_sublist _)
  have hready : (q.ready ++ (q.inFlight.filter (fun e => e.2 = c)).map Prod.fst).Nodup := by
    apply List.Nodup.append h1 (h2.sublist hmineSub)
    intro a ha hb
    exact h3 a ha (hmineSub.subset hb)
  have hdisj : ∀ x ∈ q.ready ++ (q.inFlight.filter (fun e => e.2 = c)).map Prod.fst,
      x ∉ (q.inFlight.filter (fun e => e.2 ≠ c)).map Prod.fst := by
    intro x hx hc2
    obtain ⟨e2, he2, hf2⟩ := List.mem_map.mp hc2
    have he2m : e2 ∈ q.inFlight := (List.filter_sublist _).subset he2
    have he2c : e2.2 ≠ c := by simpa using List.of_mem_filter he2
    rcases List.mem_append.mp hx with hr | hmine
    · exact h3 x hr (hkeepSub.subset hc2)
    · obtain ⟨e1, he1, hf1⟩ := List.mem_map.mp hmine
      have he1m : e1 ∈ q.inFlight := (List.filter_sublist _).subset he1
      have he1c : e1.2 = c := by simpa using List.of_mem_filter he1
      have he12 : e1 = e2 := List.inj_on_of_nodup_map h2 he1m he2m (by rw [hf1, hf2])
      rw [he12] at he1c
      exact he2c he1c
  have hrb : ∀ x ∈ q.ready ++ (q.inFlight.filter (fun e => e.2 = c)).map Prod.fst,
      x < q.nextId := by
    intro x hx
    rcases List.mem_append.mp hx with hr | hm
    · exact h4 x hr
    · obtain ⟨e, he, hf⟩ := List.mem_map.mp hm
      have := h5 e ((List.filter_sublist _).subset he)
      omega
  have hfb : ∀ e ∈ q.inFlight.filter (fun e => e.2 ≠ c), e.1 < q.nextId :=
    fun e he => h5 e ((List.filter_sublist _).subset he)
  exact ⟨hready, h2.sublist hkeepSub, hdisj, hrb, hfb⟩

/-! ## Broker-level preservation of the invariant. -/

lemma inFlightCount_append_empty (b : Broker) (n : String) (c : Nat) :
    inFlightCount { b with queues := b.queues ++ [(n, emptyQueue)] } c =
      inFlightCount b c := by
  unfold inFlightCount
  dsimp only
  rw [List.map_append, List.sum_append]
  simp [inFlightCountQ, emptyQueue]

lemma inFlightCount_updateQueue {b : Broker} {n : String} {q : QueueState}
    (f : QueueState → QueueState) (hnd : (b.queues.map Prod.fst).Nodup)
    (hq : alookup b.queues n = some q) (c : Nat) :
    inFlightCount { b with queues := updateQueue b.queues n f } c +
      inFlightCountQ q c =
      inFlightCount b c + inFlightCountQ (f q) c :=
  sum_map_updateQueue (fun q2 => inFlightCountQ q2 c) f hnd hq

lemma brokerWF_broker0 : BrokerWF broker0 :=
  ⟨List.nodup_nil, by simp [broker0], List.nodup_nil, by simp [broker0],
   by simp [broker0], fun _ _ => rfl⟩

lemma brokerWF_step {b : Broker} (h : BrokerWF b) (op : BrokerOp) :
    BrokerWF (step b op) := by
  obtain ⟨hN, hQ, hSN, hSF, hPB, hIZ⟩ := h
  cases op with
  | assertQ n =>
    show BrokerWF (assertQueue b n)
    unfold assertQueue
    split
    · exact ⟨hN, hQ, hSN, hSF, hPB, hIZ⟩
    · rename_i halo
      refine ⟨?_, ?_, hSN, hSF, ?_, ?_⟩
      · dsimp only
        rw [List.map_append]
        apply List.Nodup.append hN (by simp)
        intro a ha hb2
        have hbn : a = n := by simpa using hb2
        rw [alookup_eq_none_iff] at halo
        obtain ⟨e, he, hf⟩ := List.mem_map.mp ha
        exact halo e he (by rw [hf, hbn])
      · intro p hp
        dsimp only at hp
        rcases List.mem_append.mp hp with hl | hr
        · exact hQ p hl
        · have : p = (n, emptyQueue) := by simpa using hr
          rw [this]
          exact queueWF_empty
      · intro e he
        have hcnt := inFlightCount_append_empty b n e.1
        exact le_trans (le_of_eq hcnt) (hPB e he)
      · intro c hc
        exact (inFlightCount_append_empty b n c).trans (hIZ c hc)
  | publish n =>
    show BrokerWF (publishTo b n)
    unfold publishTo
    split
    · rename_i q halo
      refine ⟨?_, ?_, hSN, hSF, ?_, ?_⟩
      · dsimp only
        rw [updateQueue_map_fst]
        exact hN
      · intro p hp
        dsimp only at hp
        rcases mem_updateQueue hp with hl | ⟨q0, hq0, hpq⟩
        · exact hQ p hl
        · rw [hpq]
          exact queueWF_enqueue (hQ (p.1, q0) hq0)
      · intro e he
        have hcnt := inFlightCount_updateQueue enqueue hN halo e.1
        have h0 : inFlightCountQ (enqueue q) e.1 = inFlightCountQ q e.1 := rfl
        have := hPB e he
        omega
      · intro c hc
        have hcnt := inFlightCount_updateQueue enqueue hN halo c
        have h0 : inFlightCountQ (enqueue q) c = inFlightCountQ q c := rfl
        have := hIZ c hc
        omega
    · exact ⟨hN, hQ, hSN, hSF, hPB, hIZ⟩
  | subscribe n k =>
    show BrokerWF (subscribeTo b n k)
    unfold subscribeTo
    have hfresh : alookup b.sessions b.nextConsumer = none := by
      rw [alookup_eq_none_iff]
      intro e he
      have := hSF e he
      omega
    refine ⟨hN, hQ, ?_, ?_, ?_, ?_⟩
    · dsimp only
      rw [List.map_append]
      apply List.Nodup.append hSN (by simp)
      intro a ha hb2
      have : a = b.nextConsumer := by simpa using hb2
      obtain ⟨e, he, hf⟩ := List.mem_map.mp ha
      have := hSF e he
      omega
    · intro e he
      dsimp only at he ⊢
      rcases List.mem_append.mp he with hl | hr
      · have := hSF e hl
        omega
      · have he2 : e = (b.nextConsumer, { queueName := n, prefetch := k }) := by
          simpa using hr
        rw [he2]
        dsimp only
        omega
    · intro e he
      dsimp only at he
      rcases List.mem_append.mp he with hl | hr
      · exact hPB e hl
      · have he2 : e = (b.nextConsumer, { queueName := n, prefetch := k }) := by
          simpa using hr
        rw [he2]
        show inFlightCount b b.nextConsumer ≤ k
        rw [hIZ _ hfresh]
        exact Nat.zero_le k
    · intro c hc
      dsimp only at hc
      have hc1 : alookup b.sessions c = none := by
        rw [alookup_eq_none_iff] at hc ⊢
        intro e he
        exact hc e (List.mem_append_left _ he)
      exact hIZ c hc1
  | deliver c =>
    show BrokerWF (deliverTo b c)
    unfold deliverTo
    split
    · exact ⟨hN, hQ, hSN, hSF, hPB, hIZ⟩
    · rename_i s hsess
      split
      · exact ⟨hN, hQ, hSN, hSF, hPB, hIZ⟩
      · rename_i q hque
        show BrokerWF { b with queues :=
          (updateQueue b.queues s.queueName
            (fun q2 => (dequeueFor q2 c (s.prefetch - inFlightCount b c)).1)) }
        refine ⟨?_, ?_, hSN, hSF, ?_, ?_⟩
        · dsimp only
          rw [updateQueue_map_fst]
          exact hN
        · intro p hp
          dsimp only at hp
          rcases mem_updateQueue hp with hl | ⟨q0, hq0, hpq⟩
          · exact hQ p hl
          · rw [hpq]
            exact queueWF_dequeueFor (hQ (p.1, q0) hq0) c _
        · intro e he
          dsimp only at he
          have hcnt : inFlightCount
              { b with queues :=
                (updateQueue b.queues s.queueName
                  (fun q2 => (dequeueFor q2 c (s.prefetch - inFlightCount b c)).1)) } e.1 +
                inFlightCountQ q e.1 =
              inFlightCount b e.1 +
                inFlightCountQ ((dequeueFor q c (s.prefetch - inFlightCount b c)).1) e.1 :=
            inFlightCount_updateQueue _ hN hque e.1
          have hdq := inFlightCountQ_dequeue q c (s.prefetch - inFlightCount b c) e.1
          by_cases hec : e.1 = c
          · have hes : alookup b.sessions e.1 = some e.2 := alookup_of_mem_nodup hSN he
            rw [hec, hsess] at hes
            have he2s : e.2 = s := (Option.some.inj hes).symm
            have hbound := hPB e he
            have hlen : (q.ready.take (s.prefetch - inFlightCount b c)).length ≤
                s.prefetch - inFlightCount b c := by
              rw [List.length_take]
              omega
            rw [if_pos hec] at hdq
            rw [he2s] at hbound ⊢
            rw [hec] at hcnt hdq hbound ⊢
            omega
          · rw [if_neg hec] at hdq
            have hbound := hPB e he
            omega
        · intro c2 hc2
          dsimp only at hc2
          have hcnt : inFlightCount
              { b with queues :=
                (updateQueue b.queues s.queueName
                  (fun q2 => (dequeueFor q2 c (s.prefetch - inFlightCount b c)).1)) } c2 +
                inFlightCountQ q c2 =
              inFlightCount b c2 +
                inFlightCountQ ((dequeueFor q c (s.prefetch - inFlightCount b c)).1) c2 :=
            inFlightCount_updateQueue _ hN hque c2
          have hdq := inFlightCountQ_dequeue q c (s.prefetch - inFlightCount b c) c2
          have hne : c2 ≠ c := by
            intro hcc
            rw [hcc, hsess] at hc2
            exact Option.noConfusion hc2
          rw [if_neg hne] at hdq
          have h0 := hIZ c2 hc2
          omega
  | ackOp c m =>
    show BrokerWF (ackAt b c m)
    unfold ackAt
    split
    · exact ⟨hN, hQ, hSN, hSF, hPB, hIZ⟩
    · rename_i s hsess
      split
      · exact ⟨hN, hQ, hSN, hSF, hPB, hIZ⟩
      · rename_i q hque
        split
        · rename_i q2 hok
          unfold ackMessage at hok
          by_cases hin : (m, c) ∈ q.inFlight
          · rw [if_pos hin] at hok
            have hq2 : q2 = { ready := q.ready,
                              inFlight := q.inFlight.filter (fun e => e.1 ≠ m),
                              nextId := q.nextId } := (Except.ok.inj hok).symm
            subst hq2
            refine ⟨?_, ?_, hSN, hSF, ?_, ?_⟩
            · dsimp only
              rw [updateQueue_map_fst]
              exact hN
            · intro p hp
              dsimp only at hp
              rcases mem_updateQueue hp with hl | ⟨q0, hq0, hpq⟩
              · exact hQ p hl
              · rw [hpq]
                exact queueWF_filterInFlight (hQ (s.queueName, q) (alookup_mem hque)) _
            · intro e he
              dsimp only at he
              have hcnt := inFlightCount_updateQueue
                (fun _ => { ready := q.ready,
                            inFlight := q.inFlight.filter (fun e => e.1 ≠ m),
                            nextId := q.nextId }) hN hque e.1
              have hle : inFlightCountQ { ready := q.ready,
                                          inFlight := q.inFlight.filter (fun e => e.1 ≠ m),
                                          nextId := q.nextId } e.1 ≤
                  inFlightCountQ q e.1 :=
                inFlightCountQ_filterKey_le q m e.1
              have := hPB e he
              omega
            · intro c2 hc2
              dsimp only at hc2
              have hcnt := inFlightCount_updateQueue
                (fun _ => { ready := q.ready,
                            inFlight := q.inFlight.filter (fun e => e.1 ≠ m),
                            nextId := q.nextId }) hN hque c2
              have hle : inFlightCountQ { ready := q.ready,
                                          inFlight := q.inFlight.filter (fun e => e.1 ≠ m),
                                          nextId := q.nextId } c2 ≤
                  inFlightCountQ q c2 :=
                inFlightCountQ_filterKey_le q m c2
              have := hIZ c2 hc2
              omega
          · rw [if_neg hin] at hok
            simp at hok
        · exact ⟨hN, hQ, hSN, hSF, hPB, hIZ⟩
  | nackOp c m rq =>
    show BrokerWF (nackAt b c m rq)
    unfold nackAt
    split
    · exact ⟨hN, hQ, hSN, hSF, hPB, hIZ⟩
    · rename_i s hsess
      split
      · exact ⟨hN, hQ, hSN, hSF, hPB, hIZ⟩
      · rename_i q hque
        split
        · rename_i q2 hok
          unfold nackMessage at hok
          by_cases hin : (m, c) ∈ q.inFlight
          · rw [if_pos hin] at hok
            have hq2 : q2 = { ready := if rq then q.ready ++ [m] else q.ready,
                              inFlight := q.inFlight.filter (fun e => e.1 ≠ m),
                              nextId := q.nextId } := (Except.ok.inj hok).symm
            subst hq2
            refine ⟨?_, ?_, hSN, hSF, ?_, ?_⟩
            · dsimp only
              rw [updateQueue_map_fst]
              exact hN
            · intro p hp
              dsimp only at hp
              rcases mem_updateQueue hp with hl | ⟨q0, hq0, hpq⟩
              · exact hQ p hl
              · rw [hpq]
                have hwfq := hQ (s.queueName, q) (alookup_mem hque)
                cases rq with
                | false =>
                  have hr : (if (false : Bool) then q.ready ++ [m] else q.ready) =
                      q.ready := by simp
                  rw [hr]
                  exact queueWF_filterInFlight hwfq _
                | true =>
                  have hr : (if (true : Bool) then q.ready ++ [m] else q.ready) =
                      q.ready ++ [m] := by simp
                  rw [hr]
                  exact queueWF_nackRequeue hwfq hin
            · intro e he
              dsimp only at he
              have hcnt := inFlightCount_updateQueue
                (fun _ => { ready := if rq then q.ready ++ [m] else q.ready,
                            inFlight := q.inFlight.filter (fun e => e.1 ≠ m),
                            nextId := q.nextId }) hN hque e.1
              have hle : inFlightCountQ
                  { ready := if rq then q.ready ++ [m] else q.ready,
                    inFlight := q.inFlight.filter (fun e => e.1 ≠ m),
                    nextId := q.nextId } e.1 ≤
                  inFlightCountQ q e.1 :=
                inFlightCountQ_filterKey_le q m e.1
              have := hPB e he
              omega
            · intro c2 hc2
              dsimp only at hc2
              have hcnt := inFlightCount_updateQueue
                (fun _ => { ready := if rq then q.ready ++ [m] else q.ready,
                            inFlight := q.inFlight.filter (fun e => e.1 ≠ m),
                            nextId := q.nextId }) hN hque c2
              have hle : inFlightCountQ
                  { ready := if rq then q.ready ++ [m] else q.ready,
                    inFlight := q.inFlight.filter (fun e => e.1 ≠ m),
                    nextId := q.nextId } c2 ≤
                  inFlightCountQ q c2 :=
                inFlightCountQ_filterKey_le q m c2
              have := hIZ c2 hc2
              omega
          · rw [if_neg hin] at hok
            simp at hok
        · exact ⟨hN, hQ, hSN, hSF, hPB, hIZ⟩
  | unsub c =>
    show BrokerWF (unsubscribe b c)
    unfold unsubscribe
    refine ⟨?_, ?_, ?_, ?_, ?_, ?_⟩
    · dsimp only
      have hcomp : ((b.queues.map (fun p => (p.1, requeueAllOf p.2 c))).map Prod.fst) =
          b.queues.map Prod.fst := by
        rw [List.map_map]
        apply List.map_congr_left
        intro p _
        rfl
      rw [hcomp]
      exact hN
    · intro p hp
      dsimp only at hp
      obtain ⟨p0, hp0, rfl⟩ := List.mem_map.mp hp
      exact queueWF_requeueAllOf (hQ p0 hp0) c
    · dsimp only
      exact hSN.sublist (List.Sublist.map _ (List.filter_sublist _))
    · intro e he
      dsimp only at he ⊢
      exact hSF e ((List.filter_sublist _).subset he)
    · intro e he
      dsimp only at he
      have hem : e ∈ b.sessions := (List.filter_sublist _).subset he
      have hec : e.1 ≠ c := by
        simpa using List.of_mem_filter he
      exact le_trans (le_of_eq (inFlightCount_requeue_map_other b c e.1 hec))
        (hPB e hem)
    · intro c2 hc2
      dsimp only at hc2
      by_cases hcc : c2 = c
      · rw [hcc]
        exact inFlightCount_requeue_map_self b c
      · have hc1 : alookup b.sessions c2 = none := by
          rw [alookup_eq_none_iff] at hc2 ⊢
          intro e he
          by_cases hc3 : e.1 = c
          · intro hcon
            exact hcc (by rw [← hcon, hc3])
          · exact hc2 e (List.mem_filter.mpr ⟨he, by simpa using hc3⟩)
        exact (inFlightCount_requeue_map_other b c c2 hcc).trans (hIZ c2 hc1)
  | reap c =>
    show BrokerWF (reapExpired b c)
    unfold reapExpired
    split
    · exact ⟨hN, hQ, hSN, hSF, hPB, hIZ⟩
    · rename_i hsess
      refine ⟨?_, ?_, hSN, hSF, ?_, ?_⟩
      · dsimp only
        have hcomp : ((b.queues.map (fun p => (p.1, requeueAllOf p.2 c))).map Prod.fst) =
            b.queues.map Prod.fst := by
          rw [List.map_map]
          apply List.map_congr_left
          intro p _
          rfl
        rw [hcomp]
        exact hN
      · intro p hp
        dsimp only at hp
        obtain ⟨p0, hp0, rfl⟩ := List.mem_map.mp hp
        exact queueWF_requeueAllOf (hQ p0 hp0) c
      · intro e he
        dsimp only at he
        have hec : e.1 ≠ c := by
          intro hcon
          rw [alookup_eq_none_iff] at hsess
          exact hsess e he hcon
        exact le_trans (le_of_eq (inFlightCount_requeue_map_other b c e.1 hec))
          (hPB e he)
      · intro c2 hc2
        dsimp only at hc2
        by_cases hcc : c2 = c
        · rw [hcc]
          exact inFlightCount_requeue_map_self b c
        · exact (inFlightCount_requeue_map_other b c c2 hcc).trans (hIZ c2 hc2)

lemma brokerWF_run (ops : List BrokerOp) : BrokerWF (run broker0 ops) := by
  suffices h : ∀ b, BrokerWF b → BrokerWF (run b ops) from h broker0 brokerWF_broker0
  unfold run
  induction ops with
  | nil => exact fun b hb => hb
  | cons op rest ih =>
    intro b hb
    rw [List.foldl_cons]
    exact ih (step b op) (brokerWF_step hb op)

/-! ## The prefetch invariant (C2). -/

/-- C2: in every state reachable from the initial broker by any sequence of
AssertQueue, Publish, Subscribe, delivery, Ack, Nack, Unsubscribe and
ReapExpired operations, every consumer session's number of
delivered-but-unacknowledged messages is at most its `prefetch_limit`
(the lower bound 0 is inherent in the count being a natural number). -/
theorem prefetch_respected (ops : List BrokerOp) (c : Nat) (s : Session)
    (hs : alookup (run broker0 ops).sessions c = some s) :
    inFlightCount (run broker0 ops) c ≤ s.prefetch := by
  have h := (brokerWF_run ops).prefetchBound (c, s) (alookup_mem hs)
  simpa using h

/-- C2 witness: a consumer with prefetch 1 on a queue holding two published
messages is delivered at most one message. -/
theorem prefetch_respected_witness :
    inFlightCount (run broker0 [BrokerOp.assertQ "tasks", BrokerOp.publish "tasks",
      BrokerOp.publish "tasks", BrokerOp.subscribe "tasks" 1,
      BrokerOp.deliver 0]) 0 ≤ 1 :=
  prefetch_respected [BrokerOp.assertQ "tasks", BrokerOp.publish "tasks",
    BrokerOp.publish "tasks", BrokerOp.subscribe "tasks" 1, BrokerOp.deliver 0]
    0 { queueName := "tasks", prefetch := 1 } (by decide)

/-! ## The message-partition invariant (C5). -/

/-- C5: in every reachable broker state, every queue satisfies the partition
invariant: `ready_sequence` has no duplicate ids, a message id is in flight
for at most one consumer (in-flight keys are duplicate-free), and no id is
simultaneously ready and in flight — so each id is in exactly one of
ready_sequence, the in_flight keys, or nowhere; every operation preserves
this because every reachable state (prefix of any operation sequence)
satisfies it. -/
theorem message_partition (ops : List BrokerOp) (p : String × QueueState)
    (hp : p ∈ (run broker0 ops).queues) :
    p.2.ready.Nodup ∧
    (p.2.inFlight.map Prod.fst).Nodup ∧
    (∀ m ∈ p.2.ready, m ∉ p.2.inFlight.map Prod.fst) := by
  have h := (brokerWF_run ops).queuesWF p hp
  exact ⟨h.readyNodup, h.keysNodup, h.readyFlightDisjoint⟩

/-- C5 witness: after assert, publish, subscribe and one delivery, the single
queue holds message 0 in flight for consumer 0 with duplicate-free keys. -/
theorem message_partition_witness :
    (({ ready := [], inFlight := [(0, 0)], nextId := 1 } : QueueState).inFlight.map
      Prod.fst).Nodup :=
  (message_partition [BrokerOp.assertQ "tasks", BrokerOp.publish "tasks",
    BrokerOp.subscribe "tasks" 1, BrokerOp.deliver 0]
    ("tasks", { ready := [], inFlight := [(0, 0)], nextId := 1 })
    (by decide)).2.1

/-! ## Unsubscribe requeues everything (C8). -/

/-- C8: immediately after `Unsubscribe(c)`, consumer `c` holds no in-flight
messages anywhere and its session is gone; every queue is replaced by its
requeued version, in which each message that was in flight for `c` sits in
the ready_sequence (exactly once, under the queue invariant) and no in-flight
entry for `c` remains — so an unacked message survives the crash and is
redelivered exactly once more per crash cycle rather than lost. -/
theorem unsubscribe_requeues (b : Broker) (c : Nat)
    (hwf : ∀ p ∈ b.queues, QueueWF p.2) :
    inFlightCount (unsubscribe b c) c = 0 ∧
    alookup (unsubscribe b c).sessions c = none ∧
    (unsubscribe b c).queues = b.queues.map (fun p => (p.1, requeueAllOf p.2 c)) ∧
    (∀ p ∈ b.queues, (∀ e ∈ p.2.inFlight, e.2 = c →
      e.1 ∈ (requeueAllOf p.2 c).ready ∧
      (requeueAllOf p.2 c).ready.count e.1 = 1) ∧
      (∀ e2 ∈ (requeueAllOf p.2 c).inFlight, e2.2 ≠ c)) := by
  refine ⟨inFlightCount_requeue_map_self b c, ?_, rfl, ?_⟩
  · rw [alookup_eq_none_iff]
    intro e he
    unfold unsubscribe at he
    dsimp only at he
    simpa using List.of_mem_filter he
  · intro p hp
    obtain ⟨h1, h2, h3, h4, h5⟩ := hwf p hp
    constructor
    · intro e he hec
      have hmem : e ∈ p.2.inFlight.filter (fun e => e.2 = c) :=
        List.mem_filter.mpr ⟨he, by simpa using hec⟩
      have hmine : e.1 ∈ (p.2.inFlight.filter (fun e => e.2 = c)).map Prod.fst :=
        List.mem_map_of_mem Prod.fst hmem
      constructor
      · unfold requeueAllOf
        dsimp only
        exact List.mem_append_right _ hmine
      · unfold requeueAllOf
        dsimp only
        rw [List.count_append]
        have hnotr : e.1 ∉ p.2.ready := by
          intro hr
          exact h3 e.1 hr (List.mem_map_of_mem Prod.fst he)
        rw [List.count_eq_zero_of_not_mem hnotr]
        have hnd : ((p.2.inFlight.filter (fun e => e.2 = c)).map Prod.fst).Nodup :=
          h2.sublist (List.Sublist.map _ (List.filter_sublist _))
        rw [List.count_eq_one_of_mem hnd hmine]
    · intro e2 he2
      unfold requeueAllOf at he2
      dsimp only at he2
      simpa using List.of_mem_filter he2

/-- C8 witness: unsubscribing consumer 3 that holds message 0 in flight
leaves it with an in-flight count of zero. -/
theorem unsubscribe_requeues_witness :
    inFlightCount (unsubscribe
      { queues := [("tasks", { ready := [], inFlight := [(0, 3)], nextId := 1 })],
        sessions := [(3, { queueName := "tasks", prefetch := 1 })],
        nextConsumer := 4 } 3) 3 = 0 :=
  (unsubscribe_requeues
    { queues := [("tasks", { ready := [], inFlight := [(0, 3)], nextId := 1 })],
      sessions := [(3, { queueName := "tasks", prefetch := 1 })],
      nextConsumer := 4 } 3
    (by
      intro p hp
      simp only [List.mem_singleton] at hp
      subst hp
      exact ⟨by decide, by decide, by decide, by decide, by decide⟩)).1

end Microservices
